import Mathlib

/-!
Verification development for the openapi-generate schema pipeline.

The TypeScript sources are shallowly embedded:
* JS objects with string keys are insertion-ordered association lists (`SMap`);
  `obj[k] = v` updates in place when the key exists and appends otherwise,
  matching JS property-order semantics.
* JS strings, where character-level transformations matter (sanitizeToolName,
  generateOperationId), are lists of UTF-16 code units (`List Nat`); elsewhere
  they stay `String`.
* Recursive conversions that can diverge on cyclic reference chains take a
  fuel argument modelling the JS call-stack depth; exhaustion (`none`)
  corresponds to a stack overflow, which the TS entry point catches and turns
  into an INTERNAL_ERROR envelope.
-/

namespace OpenAPIGen

/-- Insertion-ordered string-keyed map, the model of a JS object. -/
abbrev SMap (α : Type) : Type := List (String × α)

/-- First-match lookup, the model of JS property access `obj[k]`. -/
def SMap.find? {α : Type} : SMap α → String → Option α
  | [], _ => none
  | (k1, v) :: rest, k => if k1 = k then some v else SMap.find? rest k

/-- Key-presence test (a stored object value is always truthy in JS). -/
def SMap.contains {α : Type} (m : SMap α) (k : String) : Bool :=
  (SMap.find? m k).isSome

/-- JS assignment `obj[k] = v`: overwrite in place if the key exists, else append. -/
def SMap.insert {α : Type} : SMap α → String → α → SMap α
  | [], k, v => [(k, v)]
  | (k1, v1) :: rest, k, v =>
    if k1 = k then (k1, v) :: rest else (k1, v1) :: SMap.insert rest k v

/-- Key list in insertion order (JS `Object.keys`). -/
def SMap.keysOf {α : Type} (m : SMap α) : List String := m.map Prod.fst

/-- JS object spread `\x7b...a, ...b\x7d`. -/
def SMap.spread {α : Type} (a b : SMap α) : SMap α :=
  b.foldl (fun acc kv => SMap.insert acc kv.1 kv.2) a

/-- JSON literal values allowed in `enum` lists (types.ts: string, number, boolean). -/
inductive Lit where
  | str (s : String)
  | num (n : Int)
  | bool (b : Bool)
deriving DecidableEq, Repr

/-- Small JSON value model for `unknown`-typed fields (default, example, diagnostics). -/
inductive JVal where
  | str (s : String)
  | num (n : Int)
  | bool (b : Bool)
  | null
deriving DecidableEq, Repr

/-- JS truthiness of a `JVal`. -/
def JVal.truthy : JVal → Bool
  | .str s => s ≠ ""
  | .num n => n ≠ 0
  | .bool b => b
  | .null => false

/-- Truthiness of an optional JS string field: present and nonempty. -/
def truthyStrOpt : Option String → Bool
  | some s => s ≠ ""
  | none => false

/-- Copy a string field the way `if (x.f) y.f = x.f` does: only a truthy value survives. -/
def copyTruthyStr : Option String → Option String
  | some s => if s = "" then none else some s
  | none => none

/-- JS `String.prototype.replace` with a plain-string pattern removes only the
first occurrence of the pattern (here always replaced by the empty string). -/
def removeFirstOccurrence : List Char → List Char → List Char
  | [], _ => []
  | c :: rest, pat =>
    if pat.isPrefixOf (c :: rest) then (c :: rest).drop pat.length
    else c :: removeFirstOccurrence rest pat

/-! ## UTF-16 code-unit string model (for character pipelines) -/

/-- Code units of a string (ASCII-faithful; astral scalars are kept as single
units, a harmless simplification noted in the development header). -/
def strCodes (s : String) : List Nat := s.data.map Char.toNat

/-- Repack code units into a `String`. -/
def codesStr (l : List Nat) : String := ⟨l.map Char.ofNat⟩

/-- ASCII digit or letter code (`[a-zA-Z0-9]`). -/
def isAsciiAlphaNumCode (u : Nat) : Bool :=
  (48 ≤ u && u ≤ 57) || (65 ≤ u && u ≤ 90) || (97 ≤ u && u ≤ 122)

/-- Character class `[a-zA-Z0-9_-]` kept intact by `sanitizeToolName`. -/
def toolNameCharCode (u : Nat) : Bool :=
  isAsciiAlphaNumCode u || u = 95 || u = 45

/-- ASCII lower-casing of one code unit (`String.prototype.toLowerCase`). -/
def lowerCode (u : Nat) : Nat := if 65 ≤ u ∧ u ≤ 90 then u + 32 else u

/-- ASCII upper-casing of one code unit (`String.prototype.toUpperCase`). -/
def upperCode (u : Nat) : Nat := if 97 ≤ u ∧ u ≤ 122 then u - 32 else u

/-- `s.toLowerCase()` on code units. -/
def toLowerCodes (l : List Nat) : List Nat := l.map lowerCode

/-- `s.toUpperCase()` on code units. -/
def jsToUpper (s : String) : String := codesStr ((strCodes s).map upperCode)

/-- Regex step `/[^a-zA-Z0-9_-]/g → '_'` (underscore is code 95). -/
def replaceBadChars (l : List Nat) : List Nat :=
  l.map (fun u => if toolNameCharCode u then u else 95)

/-- Regex step `/_+/g → '_'`: collapse consecutive underscores. -/
def collapseUnderscores : List Nat → List Nat
  | [] => []
  | [u] => [u]
  | a :: b :: rest =>
    if a = 95 ∧ b = 95 then collapseUnderscores (b :: rest)
    else a :: collapseUnderscores (b :: rest)

/-- Drop a single leading underscore if present. -/
def dropLeadUnderscore : List Nat → List Nat
  | [] => []
  | u :: rest => if u = 95 then rest else u :: rest

/-- Regex step `/^_|_$/g → ''`: strip one leading and one trailing underscore. -/
def trimEdgeUnderscores (l : List Nat) : List Nat :=
  (dropLeadUnderscore ((dropLeadUnderscore l).reverse)).reverse

/-- sanitizeToolName core on code units (server.ts `sanitizeToolName`):
replace characters outside `[a-zA-Z0-9_-]` with `_`, collapse `_` runs, strip
edge `_`, lower-case, then `slice(0, 64)`. -/
def sanitizeCore (l : List Nat) : List Nat :=
  (toLowerCodes (trimEdgeUnderscores (collapseUnderscores (replaceBadChars l)))).take 64

/-- server.ts `sanitizeToolName` at the `String` interface. -/
def sanitizeToolName (s : String) : String := codesStr (sanitizeCore (strCodes s))

/-- Regex step `/^\//` of `generateOperationId`: strip one leading slash (code 47). -/
def dropLeadingSlash : List Nat → List Nat
  | 47 :: rest => rest
  | l => l

/-- Regex step `/\x7b([^\x7d]+)\x7d/g → '$1'` of `generateOperationId`: drop the
braces (codes 123 and 125) around each nonempty brace-delimited group, keeping
its content.  The fuel of the scanner is the list length, which always
suffices, so the 0-fuel fallback is unreachable. -/
def stripBracesFuel : Nat → List Nat → List Nat
  | 0, l => l
  | _ + 1, [] => []
  | n + 1, u :: rest =>
    if u = 123 then
      let content := rest.takeWhile (fun x => x ≠ 125)
      let after := rest.dropWhile (fun x => x ≠ 125)
      if content.isEmpty || after.isEmpty then u :: stripBracesFuel n rest
      else content ++ stripBracesFuel n after.tail
    else u :: stripBracesFuel n rest

/-- Entry point of the brace-stripping scanner. -/
def stripBraces (l : List Nat) : List Nat := stripBracesFuel l.length l

/-- Regex step `/[^a-zA-Z0-9]+/g → '_'`: each maximal run of non-alphanumeric
code units becomes a single underscore.  The flag records whether the scanner
is inside such a run. -/
def underscoreRunsAux : Bool → List Nat → List Nat
  | _, [] => []
  | inRun, u :: rest =>
    if isAsciiAlphaNumCode u then u :: underscoreRunsAux false rest
    else if inRun then underscoreRunsAux true rest
    else 95 :: underscoreRunsAux true rest

/-- Replace every run of non-alphanumeric code units with one underscore. -/
def underscoreRuns (l : List Nat) : List Nat := underscoreRunsAux false l

/-- parse.ts `generateOperationId`: strip the leading slash, unwrap `\x7b\x7d`
path variables, underscore non-alphanumeric runs, collapse and trim
underscores, prefix with `method + "_"`, lower-case the whole id. -/
def generateOperationId (method path : String) : String :=
  codesStr (toLowerCodes (strCodes method ++ 95 ::
    trimEdgeUnderscores (collapseUnderscores (underscoreRuns (stripBraces (dropLeadingSlash (strCodes path)))))))

/-- JS `String.prototype.trim` whitespace (the code units relevant to this
repository; JS also trims some exotic Unicode spaces). -/
def isWsCode (u : Nat) : Bool :=
  u = 32 || u = 9 || u = 10 || u = 13 || u = 11 || u = 12

/-- JS `s.trim()`. -/
def jsTrim (s : String) : String :=
  codesStr ((((strCodes s).dropWhile isWsCode).reverse.dropWhile isWsCode).reverse)

/-! ## Internal data model (types.ts) -/

/-- Scalar fields of `ParsedSchema` (types.ts); `ref` embeds the `$ref` key and
`exampleVal` the `example` key (a Lean keyword). -/
structure ParsedSchemaAttrs where
  type : Option String := none
  format : Option String := none
  description : Option String := none
  title : Option String := none
  enum : Option (List Lit) := none
  default : Option JVal := none
  exampleVal : Option JVal := none
  nullable : Option Bool := none
  minimum : Option Int := none
  maximum : Option Int := none
  minLength : Option Int := none
  maxLength : Option Int := none
  pattern : Option String := none
  required : Option (List String) := none
  ref : Option String := none
deriving DecidableEq, Repr

/-- types.ts `ParsedSchema`: the recursive internal schema representation. -/
inductive ParsedSchema where
  | mk (attrs : ParsedSchemaAttrs)
       (properties : Option (List (String × ParsedSchema)))
       (items : Option ParsedSchema)
       (oneOf : Option (List ParsedSchema))
       (anyOf : Option (List ParsedSchema))
       (allOf : Option (List ParsedSchema))
       (additionalProperties : Option (Sum Bool ParsedSchema))

/-- Scalar attributes of a `ParsedSchema`. -/
def ParsedSchema.attrs : ParsedSchema → ParsedSchemaAttrs
  | .mk a _ _ _ _ _ _ => a

/-- `properties` field of a `ParsedSchema`. -/
def ParsedSchema.properties : ParsedSchema → Option (SMap ParsedSchema)
  | .mk _ p _ _ _ _ _ => p

/-- `items` field of a `ParsedSchema`. -/
def ParsedSchema.items : ParsedSchema → Option ParsedSchema
  | .mk _ _ i _ _ _ _ => i

/-- `oneOf` field of a `ParsedSchema`. -/
def ParsedSchema.oneOf : ParsedSchema → Option (List ParsedSchema)
  | .mk _ _ _ o _ _ _ => o

/-- `anyOf` field of a `ParsedSchema`. -/
def ParsedSchema.anyOf : ParsedSchema → Option (List ParsedSchema)
  | .mk _ _ _ _ a _ _ => a

/-- `allOf` field of a `ParsedSchema`. -/
def ParsedSchema.allOf : ParsedSchema → Option (List ParsedSchema)
  | .mk _ _ _ _ _ al _ => al

/-- `additionalProperties` field of a `ParsedSchema`. -/
def ParsedSchema.additionalProperties : ParsedSchema → Option (Sum Bool ParsedSchema)
  | .mk _ _ _ _ _ _ ad => ad

/-- `$ref` field of a `ParsedSchema`. -/
def ParsedSchema.ref (s : ParsedSchema) : Option String := s.attrs.ref

/-- `type` field of a `ParsedSchema`. -/
def ParsedSchema.type (s : ParsedSchema) : Option String := s.attrs.type

/-- `required` field of a `ParsedSchema`. -/
def ParsedSchema.required (s : ParsedSchema) : Option (List String) := s.attrs.required

/-- Schema with only scalar attributes set. -/
def psLeaf (a : ParsedSchemaAttrs) : ParsedSchema := .mk a none none none none none none

/-- Object schema with the given properties and required list. -/
def psObject (props : SMap ParsedSchema) (req : Option (List String)) : ParsedSchema :=
  .mk { type := some "object", required := req } (some props) none none none none none

/-- types.ts `ParsedParameter`; the source field `in` is embedded as `inLoc`. -/
structure ParsedParameter where
  name : String
  inLoc : String
  description : Option String := none
  required : Bool
  deprecated : Option Bool := none
  schema : ParsedSchema

/-- One media-type entry of a request body or response (`\x7bschema\x7d` wrapper). -/
structure MediaObject where
  schema : ParsedSchema

/-- types.ts `ParsedRequestBody`. -/
structure ParsedRequestBody where
  description : Option String := none
  required : Bool
  content : SMap MediaObject

/-- types.ts `ParsedResponse`. -/
structure ParsedResponse where
  status_code : String
  description : String
  content : Option (SMap MediaObject) := none

/-- types.ts `ParsedOperation`. -/
structure ParsedOperation where
  method : String
  operation_id : String
  summary : Option String := none
  description : Option String := none
  tags : Option (List String) := none
  parameters : List ParsedParameter
  request_body : Option ParsedRequestBody := none
  responses : List ParsedResponse := []
  security : Option (List (SMap (List String))) := none
  deprecated : Option Bool := none

/-- types.ts `ParsedPath`. -/
structure ParsedPath where
  path : String
  operations : List ParsedOperation

/-- types.ts `ParsedServer` (variables dropped to the fields this core reads). -/
structure ParsedServer where
  url : String
  description : Option String := none

/-- types.ts `ParsedSecurityScheme` (record form; the generator never reads it). -/
structure ParsedSecurityScheme where
  type : String
  description : Option String := none
  name : Option String := none
  inLoc : Option String := none
  scheme : Option String := none
  bearer_format : Option String := none
  open_id_connect_url : Option String := none

/-- `info` record of a `ParsedOpenAPISpec`. -/
structure ParsedInfo where
  title : String
  version : String
  description : Option String := none

/-- types.ts `ParsedOpenAPISpec`. -/
structure ParsedOpenAPISpec where
  openapi_version : String
  info : ParsedInfo
  servers : List ParsedServer := []
  paths : List ParsedPath
  schemas : SMap ParsedSchema
  security_schemes : SMap ParsedSecurityScheme := []

/-- Scalar fields of the generator's output `JSONSchema` (types.ts).  The
interface also declares `allOf`, but `convertSchemaToJSONSchema` never emits
it (allOf is merged away), so the embedding of its outputs omits it. -/
structure JSONSchemaAttrs where
  type : Option String := none
  description : Option String := none
  format : Option String := none
  enum : Option (List Lit) := none
  default : Option JVal := none
  minimum : Option Int := none
  maximum : Option Int := none
  minLength : Option Int := none
  maxLength : Option Int := none
  pattern : Option String := none
  required : Option (List String) := none
deriving DecidableEq, Repr

/-- types.ts `JSONSchema` as produced by the converter. -/
inductive JSONSchema where
  | mk (attrs : JSONSchemaAttrs)
       (properties : Option (List (String × JSONSchema)))
       (items : Option JSONSchema)
       (oneOf : Option (List JSONSchema))
       (anyOf : Option (List JSONSchema))
       (additionalProperties : Option (Sum Bool JSONSchema))

/-- Scalar attributes of a `JSONSchema`. -/
def JSONSchema.attrs : JSONSchema → JSONSchemaAttrs
  | .mk a _ _ _ _ _ => a

/-- `properties` field of a `JSONSchema`. -/
def JSONSchema.properties : JSONSchema → Option (SMap JSONSchema)
  | .mk _ p _ _ _ _ => p

/-- `items` field of a `JSONSchema`. -/
def JSONSchema.items : JSONSchema → Option JSONSchema
  | .mk _ _ i _ _ _ => i

/-- `type` field of a `JSONSchema`. -/
def JSONSchema.type (j : JSONSchema) : Option String := j.attrs.type

/-- `required` field of a `JSONSchema`. -/
def JSONSchema.required (j : JSONSchema) : Option (List String) := j.attrs.required

/-- `description` field of a `JSONSchema`. -/
def JSONSchema.description (j : JSONSchema) : Option String := j.attrs.description

/-- JS mutation `j.description = d`. -/
def JSONSchema.withDescription : JSONSchema → String → JSONSchema
  | .mk a p i o an ad, d => .mk { a with description := some d } p i o an ad

/-- The degenerate `\x7btype: "object"\x7d` returned for unresolved references. -/
def genericObjectSchema : JSONSchema :=
  JSONSchema.mk { type := some "object" } none none none none none

/-- `inputSchema` of an MCP tool (types.ts `MCPToolSchema.inputSchema`). -/
structure ToolInputSchema where
  type : String
  properties : SMap JSONSchema
  required : List String

/-- types.ts `MCPToolSchema`. -/
structure MCPToolSchema where
  name : String
  description : String
  inputSchema : ToolInputSchema

/-- types.ts `ToolResponse`: success or error envelope.  The impure
`meta.retrieved_at` timestamp is outside the embedding. -/
inductive ToolResponse (α : Type) where
  | ok (data : α)
  | error (code : String) (message : String) (details : SMap JVal)

/-- Result summary of `generateToolSchemas`. -/
structure ToolSummary where
  total_tools : Nat
  by_tag : SMap Nat

/-- Success payload of `generateToolSchemas`. -/
structure GeneratedTools where
  tools : List MCPToolSchema
  summary : ToolSummary

/-! ## Tool schema generator (server.ts / tools/schemas.ts) -/

/-- Fixed reference path stripped from `$ref` values. -/
def componentsSchemasPath : List Char := "#/components/schemas/".data

/-- `schema.$ref.replace("#/components/schemas/", "")`. -/
def refNameOf (r : String) : String :=
  ⟨removeFirstOccurrence r.data componentsSchemasPath⟩

/-- Convert an optional list of sub-schemas element-wise, propagating a
conversion failure (`none` models the stack overflow of the recursion). -/
def optListConvert {α β : Type} (f : α → Option β) : Option (List α) → Option (Option (List β))
  | none => some none
  | some l => (l.mapM f).map some

/-- Convert the values of an optional properties map. -/
def optPropsConvert {α β : Type} (f : α → Option β) :
    Option (List (String × α)) → Option (Option (List (String × β)))
  | none => some none
  | some l => (l.mapM (fun kv => (f kv.2).map (fun b => (kv.1, b)))).map some

/-- Convert an optional single sub-schema. -/
def optOneConvert {α β : Type} (f : α → Option β) : Option α → Option (Option β)
  | none => some none
  | some a => (f a).map some

/-- Convert an optional boolean-or-schema `additionalProperties` field: a
boolean is copied as-is, a schema is converted. -/
def optAddlConvert {α β : Type} (f : α → Option β) :
    Option (Sum Bool α) → Option (Option (Sum Bool β))
  | none => some none
  | some (Sum.inl b) => some (some (Sum.inl b))
  | some (Sum.inr a) => (f a).map (fun b => some (Sum.inr b))

/-- allOf merge loop of `convertSchemaToJSONSchema` (server.ts lines 196-209):
starting from `\x7btype: "object", properties: \x7b\x7d, required: []\x7d`,
convert each member; if the conversion has `properties`, spread-merge them into
the accumulator; if it has `required`, append those names. -/
def allOfAccumulate (conv : ParsedSchema → Option JSONSchema) :
    List ParsedSchema → SMap JSONSchema → List String → Option JSONSchema
  | [], props, req =>
    some (JSONSchema.mk { type := some "object", required := some req } (some props) none none none none)
  | sub :: rest, props, req =>
    match conv sub with
    | none => none
    | some converted =>
      allOfAccumulate conv rest
        (match converted.properties with
         | some cp => SMap.spread props cp
         | none => props)
        (match converted.required with
         | some cr => req ++ cr
         | none => req)

/-- server.ts `convertSchemaToJSONSchema`.  The fuel models the JS call-stack
depth: each recursive call descends one level, and exhaustion (`none`) is the
stack overflow that a cyclic `$ref` chain produces in the source. -/
def convertSchemaToJSONSchema : Nat → ParsedSchema → SMap ParsedSchema → Option JSONSchema
  | 0, _, _ => none
  | fuel + 1, schema, allSchemas =>
    if truthyStrOpt schema.ref then
      match SMap.find? allSchemas (refNameOf (schema.ref.getD "")) with
      | some refSchema => convertSchemaToJSONSchema fuel refSchema allSchemas
      | none => some genericObjectSchema
    else
      match optPropsConvert (fun s => convertSchemaToJSONSchema fuel s allSchemas) schema.properties with
      | none => none
      | some props =>
        match optOneConvert (fun s => convertSchemaToJSONSchema fuel s allSchemas) schema.items with
        | none => none
        | some itms =>
          match optListConvert (fun s => convertSchemaToJSONSchema fuel s allSchemas) schema.oneOf with
          | none => none
          | some oneOfC =>
            match optListConvert (fun s => convertSchemaToJSONSchema fuel s allSchemas) schema.anyOf with
            | none => none
            | some anyOfC =>
              match schema.allOf with
              | some members =>
                allOfAccumulate (fun s => convertSchemaToJSONSchema fuel s allSchemas) members [] []
              | none =>
                match optAddlConvert (fun s => convertSchemaToJSONSchema fuel s allSchemas) schema.additionalProperties with
                | none => none
                | some addl =>
                  some (JSONSchema.mk
                    { type := copyTruthyStr schema.attrs.type,
                      description := copyTruthyStr schema.attrs.description,
                      format := copyTruthyStr schema.attrs.format,
                      enum := schema.attrs.enum,
                      default := schema.attrs.default,
                      minimum := schema.attrs.minimum,
                      maximum := schema.attrs.maximum,
                      minLength := schema.attrs.minLength,
                      maxLength := schema.attrs.maxLength,
                      pattern := copyTruthyStr schema.attrs.pattern,
                      required := schema.attrs.required }
                    props itms oneOfC anyOfC addl)

/-- `if (x.description) j.description = x.description` on a converted schema. -/
def applyDescription (j : JSONSchema) (d : Option String) : JSONSchema :=
  match d with
  | some s => if s = "" then j else j.withDescription s
  | none => j

/-- Parameter loop of `operationToTool` (server.ts lines 77-88): convert each
parameter schema, attach its description, store it under the parameter name,
and record required parameter names. -/
def addParams (fuel : Nat) (schemas : SMap ParsedSchema) :
    List ParsedParameter → SMap JSONSchema × List String → Option (SMap JSONSchema × List String)
  | [], acc => some acc
  | param :: rest, acc =>
    match convertSchemaToJSONSchema fuel param.schema schemas with
    | none => none
    | some converted =>
      addParams fuel schemas rest
        (SMap.insert acc.1 param.name (applyDescription converted param.description),
         if param.required then acc.2 ++ [param.name] else acc.2)

/-- Content-type preference of `operationToTool` (server.ts lines 93-96):
`application/json`, then `application/x-www-form-urlencoded`, then the first
media type in insertion order. -/
def selectBodyContent (content : SMap MediaObject) : Option MediaObject :=
  match SMap.find? content "application/json" with
  | some c => some c
  | none =>
    match SMap.find? content "application/x-www-form-urlencoded" with
    | some c => some c
    | none => content.head?.map Prod.snd

/-- Body-property merge of `operationToTool` (server.ts lines 102-107): insert
each body property, re-keyed with a `body_` prefix when its name is already
present in the accumulated properties map. -/
def mergeBodyProperties (bodyProps : List (String × JSONSchema)) (props : SMap JSONSchema) :
    SMap JSONSchema :=
  bodyProps.foldl
    (fun acc kv => SMap.insert acc (if SMap.contains acc kv.1 then "body_" ++ kv.1 else kv.1) kv.2)
    props

/-- Body-required merge of `operationToTool` (server.ts lines 110-117): each
required body field name is pushed, unprefixed when the name exists in the
merged properties map and `body_`-prefixed otherwise, skipping duplicates. -/
def mergeBodyRequired (props : SMap JSONSchema) (bodyReq : List String) (req : List String) :
    List String :=
  bodyReq.foldl
    (fun r reqField =>
      let propName := if SMap.contains props reqField then reqField else "body_" ++ reqField
      if r.contains propName then r else r ++ [propName])
    req

/-- Request-body block of `operationToTool` (server.ts lines 91-129). -/
def requestBodyStep (fuel : Nat) (schemas : SMap ParsedSchema) :
    Option ParsedRequestBody → SMap JSONSchema × List String → Option (SMap JSONSchema × List String)
  | none, acc => some acc
  | some rb, acc =>
    match selectBodyContent rb.content with
    | none => some acc
    | some ct =>
      match convertSchemaToJSONSchema fuel ct.schema schemas with
      | none => none
      | some bodySchema =>
        if bodySchema.type = some "object" ∧ bodySchema.properties.isSome then
          some (mergeBodyProperties (bodySchema.properties.getD []) acc.1,
                if bodySchema.required.isSome ∧ rb.required then
                  mergeBodyRequired (mergeBodyProperties (bodySchema.properties.getD []) acc.1)
                    (bodySchema.required.getD []) acc.2
                else acc.2)
        else
          some (SMap.insert acc.1 "body" (applyDescription bodySchema rb.description),
                acc.2 ++ (if rb.required then ["body"] else []))

/-- server.ts `buildToolDescription`: join summary, distinct description,
deprecation marker and `[METHOD]`, falling back to `Execute <id>` when the
trimmed join is empty. -/
def buildToolDescription (operation : ParsedOperation) : String :=
  let parts : List String :=
    (match operation.summary with
     | some s => if s = "" then [] else [s]
     | none => []) ++
    (match operation.description with
     | some d => if d ≠ "" ∧ operation.summary ≠ some d then [d] else []
     | none => []) ++
    (if operation.deprecated = some true then ["[DEPRECATED]"] else []) ++
    ["[" ++ operation.method ++ "]"]
  let joined := jsTrim (String.intercalate " " parts)
  if joined = "" then "Execute " ++ operation.operation_id else joined

/-- server.ts `operationToTool`. -/
def operationToTool (fuel : Nat) (operation : ParsedOperation) (schemas : SMap ParsedSchema) :
    Option MCPToolSchema :=
  match addParams fuel schemas operation.parameters ([], []) with
  | none => none
  | some acc =>
    match requestBodyStep fuel schemas operation.request_body acc with
    | none => none
    | some acc2 =>
      some { name := sanitizeToolName operation.operation_id,
             description := buildToolDescription operation,
             inputSchema := { type := "object", properties := acc2.1, required := acc2.2 } }

/-- `operation.tags || ["untagged"]` (a present array is truthy even when empty). -/
def operationTags (operation : ParsedOperation) : List String :=
  operation.tags.getD ["untagged"]

/-- Tag counting of `generateToolSchemas` (server.ts lines 45-48). -/
def countByTag (ops : List ParsedOperation) : SMap Nat :=
  ops.foldl
    (fun acc operation =>
      (operationTags operation).foldl
        (fun m tag => SMap.insert m tag ((SMap.find? m tag).getD 0 + 1)) acc)
    []

/-- All operations of a parsed document, paths in document order and
operations in their per-path order. -/
def specOperations (parsedSpec : ParsedOpenAPISpec) : List ParsedOperation :=
  (parsedSpec.paths.map ParsedPath.operations).flatten

/-- server.ts `generateToolSchemas`.  The runtime guards on non-object input
and a missing paths array cannot fire on a typed `ParsedOpenAPISpec`; the
remaining failure is the caught exception (here: fuel exhaustion of the
conversion, the model of its stack overflow), reported as INTERNAL_ERROR. -/
def generateToolSchemas (fuel : Nat) (parsedSpec : ParsedOpenAPISpec) :
    ToolResponse GeneratedTools :=
  match (specOperations parsedSpec).mapM
      (fun operation => operationToTool fuel operation parsedSpec.schemas) with
  | some tools =>
    ToolResponse.ok
      { tools := tools,
        summary := { total_tools := tools.length,
                     by_tag := countByTag (specOperations parsedSpec) } }
  | none => ToolResponse.error "INTERNAL_ERROR" "Failed to generate tool schemas" []

/-! ## Document parser (tools/parse.ts) -/

/-- `type` value of a raw schema: OpenAPI 3.1 allows an array of types. -/
inductive RawType where
  | str (s : String)
  | arr (l : List String)
deriving DecidableEq, Repr

/-- Scalar fields of a raw source schema node; `ref` embeds the `$ref` key,
whose presence makes `isRef` true. -/
structure RawSchemaAttrs where
  ref : Option String := none
  type : Option RawType := none
  format : Option String := none
  description : Option String := none
  title : Option String := none
  enum : Option (List Lit) := none
  default : Option JVal := none
  exampleVal : Option JVal := none
  nullable : Option Bool := none
  minimum : Option Int := none
  maximum : Option Int := none
  minLength : Option Int := none
  maxLength : Option Int := none
  pattern : Option String := none
  required : Option (List String) := none
deriving DecidableEq, Repr

mutual

/-- Raw source schema node (`SchemaObject | ReferenceObject`).  The nested
property and composition collections are encoded as the mutual list types
`RawSchemaProps` and `RawSchemaList` so that the parser below is plain
structural recursion. -/
inductive RawSchema where
  | mk (attrs : RawSchemaAttrs)
       (properties : Option RawSchemaProps)
       (items : Option RawSchema)
       (oneOf : Option RawSchemaList)
       (anyOf : Option RawSchemaList)
       (allOf : Option RawSchemaList)
       (additionalProperties : Option (Sum Bool RawSchema))

/-- Key/value list of a raw schema's `properties`, in document order. -/
inductive RawSchemaProps where
  | nil
  | cons (key : String) (schema : RawSchema) (rest : RawSchemaProps)

/-- List of raw sub-schemas (`oneOf`/`anyOf`/`allOf` members), in document order. -/
inductive RawSchemaList where
  | nil
  | cons (schema : RawSchema) (rest : RawSchemaList)

end

/-- Raw schema with only scalar attributes. -/
def rsLeaf (a : RawSchemaAttrs) : RawSchema := .mk a none none none none none none

/-- The `\x7btype: "string"\x7d` fallback for parameters without a schema. -/
def defaultStringRawSchema : RawSchema := rsLeaf { type := some (.str "string") }

/-- The empty raw schema `\x7b\x7d` used when a content entry has no schema. -/
def emptyRawSchema : RawSchema := rsLeaf {}

/-- `schema.type` handling of `parseSchema`: a falsy value (absent or empty
string) is dropped, an array keeps only its first element. -/
def parseTypeField : Option RawType → Option String
  | some (.str s) => if s = "" then none else some s
  | some (.arr l) => l.head?
  | none => none

mutual

/-- tools/parse.ts `parseSchema`: a reference keeps only its `$ref` string;
otherwise every recognized attribute is copied when (truthily) present and the
nested schema positions are converted recursively. -/
def parseSchema : RawSchema → ParsedSchema
  | .mk a props itms oneOfS anyOfS allOfS addl =>
    if a.ref.isSome then
      psLeaf { ref := a.ref }
    else
      ParsedSchema.mk
        { type := parseTypeField a.type,
          format := copyTruthyStr a.format,
          description := copyTruthyStr a.description,
          title := copyTruthyStr a.title,
          enum := a.enum,
          default := a.default,
          exampleVal := a.exampleVal,
          nullable := if a.nullable = some true then some true else none,
          minimum := a.minimum,
          maximum := a.maximum,
          minLength := a.minLength,
          maxLength := a.maxLength,
          pattern := copyTruthyStr a.pattern,
          required := a.required }
        (match props with
         | some entries => some (parseSchemaProps entries)
         | none => none)
        (match itms with
         | some s => some (parseSchema s)
         | none => none)
        (match oneOfS with
         | some l => some (parseSchemaList l)
         | none => none)
        (match anyOfS with
         | some l => some (parseSchemaList l)
         | none => none)
        (match allOfS with
         | some l => some (parseSchemaList l)
         | none => none)
        (match addl with
         | some (Sum.inl b) => some (Sum.inl b)
         | some (Sum.inr s) => some (Sum.inr (parseSchema s))
         | none => none)

/-- Parse each property value of a raw schema. -/
def parseSchemaProps : RawSchemaProps → List (String × ParsedSchema)
  | .nil => []
  | .cons k v rest => (k, parseSchema v) :: parseSchemaProps rest

/-- Parse each member of a raw composition list. -/
def parseSchemaList : RawSchemaList → List ParsedSchema
  | .nil => []
  | .cons v rest => parseSchema v :: parseSchemaList rest

end

/-- Raw parameter object (`ParameterObject | ReferenceObject`); a present
`ref` makes `isRef` true and the parameter is filtered out. -/
structure RawParameter where
  ref : Option String := none
  name : String := ""
  inLoc : String := ""
  description : Option String := none
  required : Option Bool := none
  deprecated : Option Bool := none
  schema : Option RawSchema := none

/-- Per-parameter conversion of `parseParameters` (tools/parse.ts lines
206-213): `required` falls back to `in === "path"`, a missing schema becomes
`\x7btype: "string"\x7d`. -/
def parseParameterObject (param : RawParameter) : ParsedParameter :=
  { name := param.name,
    inLoc := param.inLoc,
    description := param.description,
    required := param.required.getD false || param.inLoc == "path",
    deprecated := param.deprecated,
    schema := parseSchema (param.schema.getD defaultStringRawSchema) }

/-- tools/parse.ts `parseParameters`: reference entries are dropped, inline
parameter objects are converted. -/
def parseParameters (parameters : List RawParameter) : List ParsedParameter :=
  (parameters.filter (fun param => !param.ref.isSome)).map parseParameterObject

/-- Raw media-type entry (`\x7bschema?\x7d`). -/
structure RawMediaObject where
  schema : Option RawSchema := none

/-- Raw request body (`RequestBodyObject | ReferenceObject`). -/
structure RawRequestBody where
  ref : Option String := none
  description : Option String := none
  required : Option Bool := none
  content : Option (SMap RawMediaObject) := none

/-- tools/parse.ts `parseRequestBody`: a reference yields `undefined`;
`required` defaults to false, each content entry's missing schema to `\x7b\x7d`. -/
def parseRequestBody (requestBody : RawRequestBody) : Option ParsedRequestBody :=
  if requestBody.ref.isSome then none
  else
    some { description := requestBody.description,
           required := requestBody.required.getD false,
           content := (requestBody.content.getD []).map
             (fun kv => (kv.1, ⟨parseSchema ((kv.2).schema.getD emptyRawSchema)⟩)) }

/-- Raw response object (`ResponseObject | ReferenceObject`). -/
structure RawResponse where
  ref : Option String := none
  description : Option String := none
  content : Option (SMap RawMediaObject) := none

/-- tools/parse.ts `parseResponses`: reference entries are dropped, the
description defaults to the empty string, content is converted when present. -/
def parseResponses (responses : SMap RawResponse) : List ParsedResponse :=
  (responses.filter (fun kv => !(kv.2).ref.isSome)).map
    (fun kv =>
      { status_code := kv.1,
        description := (kv.2).description.getD "",
        content := match (kv.2).content with
          | some c => some (c.map (fun e => (e.1, ⟨parseSchema ((e.2).schema.getD emptyRawSchema)⟩)))
          | none => none })

/-- Raw operation object; `parameters` and `responses` keep document order. -/
structure RawOperation where
  operationId : Option String := none
  summary : Option String := none
  description : Option String := none
  tags : Option (List String) := none
  parameters : Option (List RawParameter) := none
  requestBody : Option RawRequestBody := none
  responses : Option (SMap RawResponse) := none
  security : Option (List (SMap (List String))) := none
  deprecated : Option Bool := none

/-- tools/parse.ts `parseOperation`: a falsy `operationId` is regenerated,
path-level parameters precede operation-level ones, the method is upper-cased. -/
def parseOperation (method path : String) (operation : RawOperation)
    (pathParameters : List RawParameter) : ParsedOperation :=
  { method := jsToUpper method,
    operation_id :=
      (match operation.operationId with
       | some s => if s = "" then generateOperationId method path else s
       | none => generateOperationId method path),
    summary := operation.summary,
    description := operation.description,
    tags := operation.tags,
    parameters := parseParameters (pathParameters ++ operation.parameters.getD []),
    request_body :=
      (match operation.requestBody with
       | some rb => parseRequestBody rb
       | none => none),
    responses := parseResponses (operation.responses.getD []),
    security := operation.security,
    deprecated := operation.deprecated }

/-- Raw path item: its HTTP-method keys in document order, plus path-level
parameters. -/
structure RawPathItem where
  ops : SMap RawOperation
  parameters : Option (List RawParameter) := none

/-- The fixed method enumeration of `parsePathOperations`. -/
def httpMethods : List String :=
  ["get", "put", "post", "delete", "options", "head", "patch", "trace"]

/-- tools/parse.ts `parsePathOperations`: for each of the eight recognized
methods, in that fixed order, parse the operation if the path item has it. -/
def parsePathOperations (path : String) (pathItem : RawPathItem) : List ParsedOperation :=
  httpMethods.filterMap
    (fun method =>
      (SMap.find? pathItem.ops method).map
        (fun operation => parseOperation method path operation (pathItem.parameters.getD [])))

/-! ## Version gate (types.ts `isOpenAPIV3`, used at tools/parse.ts lines 61-66) -/

/-- Version-relevant slice of a raw document object (always a non-null JS
object here, so the `typeof` guards of `isOpenAPIV3` hold by construction). -/
structure RawDoc where
  openapi : Option JVal := none
  swagger : Option JVal := none

/-- JS `String.prototype.startsWith` on the character lists. -/
def jsStartsWith (s pre : String) : Bool := pre.data.isPrefixOf s.data

/-- types.ts `isOpenAPIV3`: the `openapi` field exists, is a string, and
starts with `"3."`. -/
def isOpenAPIV3 (spec : RawDoc) : Bool :=
  match spec.openapi with
  | some (JVal.str s) => jsStartsWith s "3."
  | _ => false

/-- Diagnostic `spec.openapi || spec.swagger || "unknown"` of the gate. -/
def providedVersion (spec : RawDoc) : JVal :=
  match spec.openapi with
  | some v =>
    if v.truthy then v
    else
      match spec.swagger with
      | some w => if w.truthy then w else JVal.str "unknown"
      | none => JVal.str "unknown"
  | none =>
    match spec.swagger with
    | some w => if w.truthy then w else JVal.str "unknown"
    | none => JVal.str "unknown"

/-- Version gate of `openapiParse` (tools/parse.ts lines 61-66): accept the
document or fail with INVALID_INPUT carrying the detected version. -/
def openapiVersionGate (spec : RawDoc) : ToolResponse RawDoc :=
  if !isOpenAPIV3 spec then
    ToolResponse.error "INVALID_INPUT" "Only OpenAPI 3.0 and 3.1 specifications are supported"
      [("provided_version", providedVersion spec)]
  else ToolResponse.ok spec

/-! ## Shared values for concrete instantiations -/

/-- String-typed parsed schema. -/
def psString : ParsedSchema := psLeaf { type := some "string" }

/-- Converted string schema. -/
def jsString : JSONSchema := JSONSchema.mk { type := some "string" } none none none none none

/-- Placeholder tool used only as an `Option.getD` default in closed statements. -/
def mtDefault : MCPToolSchema := ⟨"", "", ⟨"", [], []⟩⟩

/-- Data of a successful tool response, if any. -/
def responseData {α : Type} : ToolResponse α → Option α
  | .ok d => some d
  | .error _ _ _ => none

/-! ## Claim C4: reference resolution in `convertSchemaToJSONSchema` -/

/-- Removing the leading occurrence of a nonempty pattern from a string that
starts with it leaves exactly the remainder. -/
theorem removeFirst_append (p s : List Char) (hp : p ≠ []) :
    removeFirstOccurrence (p ++ s) p = s := by
  cases p with
  | nil => exact absurd rfl hp
  | cons c cs =>
    show removeFirstOccurrence (c :: (cs ++ s)) (c :: cs) = s
    rw [removeFirstOccurrence]
    rw [if_pos]
    · show (c :: (cs ++ s)).drop (c :: cs).length = s
      have harr : (c :: cs) ++ s = c :: (cs ++ s) := rfl
      rw [← harr, List.drop_left]
    · exact List.isPrefixOf_iff_prefix.mpr
        (by rw [show (c :: (cs ++ s)) = (c :: cs) ++ s from rfl]; exact List.prefix_append _ _)

/-- C4: a `$ref` whose name (after stripping the fixed prefix
`#/components/schemas/`) is found in the components mapping converts to the
recursive conversion of that entry (so the reference is fully inlined); a
`$ref` whose stripped name is absent converts to exactly `\x7btype: "object"\x7d`. -/
theorem convert_ref_resolution (fuel : Nat) (schema : ParsedSchema)
    (allSchemas : SMap ParsedSchema) (name : String)
    (href : schema.ref = some ("#/components/schemas/" ++ name)) :
    (∀ entry, SMap.find? allSchemas name = some entry →
       convertSchemaToJSONSchema (fuel + 1) schema allSchemas =
         convertSchemaToJSONSchema fuel entry allSchemas) ∧
    (SMap.find? allSchemas name = none →
       convertSchemaToJSONSchema (fuel + 1) schema allSchemas = some genericObjectSchema) := by
  have hne : ("#/components/schemas/" ++ name) ≠ "" := by
    intro h
    have hd := congrArg String.data h
    rw [String.data_append] at hd
    have h1 : "#/components/schemas/".data = [] := (List.append_eq_nil.mp hd).1
    exact absurd h1 (by decide)
  have htr : truthyStrOpt schema.ref = true := by
    rw [href]
    exact decide_eq_true hne
  have hrn : refNameOf ("#/components/schemas/" ++ name) = name := by
    unfold refNameOf componentsSchemasPath
    rw [String.data_append, removeFirst_append _ _ (by decide)]
  have htr2 : truthyStrOpt (some ("#/components/schemas/" ++ name)) = true := decide_eq_true hne
  constructor
  · intro entry hfind
    simp only [convertSchemaToJSONSchema, htr, href, Option.getD_some, hrn, hfind, htr2, if_true]
  · intro hfind
    simp only [convertSchemaToJSONSchema, htr, href, Option.getD_some, hrn, hfind, htr2, if_true]

/-- Chained-reference components mapping: A points at B, B is a string schema. -/
def c4m : SMap ParsedSchema :=
  [("A", psLeaf { ref := some "#/components/schemas/B" }), ("B", psString)]

/-- Reference to the chained entry A. -/
def c4refA : ParsedSchema := psLeaf { ref := some "#/components/schemas/A" }

/-- Reference to a name absent from `c4m`. -/
def c4missing : ParsedSchema := psLeaf { ref := some "#/components/schemas/Zed" }

/-- Witness for C4: resolving A chains through B and inlines the string schema,
and an unknown name degrades to the generic object schema. -/
theorem convert_ref_resolution_witness :
    convertSchemaToJSONSchema 3 c4refA c4m =
      convertSchemaToJSONSchema 2 (psLeaf { ref := some "#/components/schemas/B" }) c4m ∧
    convertSchemaToJSONSchema 3 c4refA c4m = some jsString ∧
    convertSchemaToJSONSchema 3 c4missing c4m = some genericObjectSchema := by
  refine ⟨(convert_ref_resolution 2 c4refA c4m "A" rfl).1 _ rfl, rfl,
    (convert_ref_resolution 2 c4missing c4m "Zed" rfl).2 rfl⟩

/-! ## Claim C6: deterministic operation-id generation -/

/-- The path transformation worded by the spec for operation-id generation:
strip the leading slash, unwrap brace-delimited variables, replace runs of
non-alphanumeric characters by single underscores, trim edge underscores,
lower-case. -/
def claimOperationIdPath (path : String) : List Nat :=
  toLowerCodes (trimEdgeUnderscores (collapseUnderscores (underscoreRuns (stripBraces (dropLeadingSlash (strCodes path))))))

/-- C6: `generateOperationId` computes exactly the claimed pipeline — the
lower-cased path transformation prefixed with the method and an underscore
(the code lower-cases the joined id, which also lower-cases the method; on the
lower-case method names it is fed this coincides with the claimed rule, and it
matches the spec's own example `(GET, /users) → get_users`) — and the three
claimed examples hold. -/
theorem generateOperationId_spec :
    (∀ method path : String,
       generateOperationId method path =
         codesStr (toLowerCodes (strCodes method) ++ 95 :: claimOperationIdPath path)) ∧
    generateOperationId "get" "/users" = "get_users" ∧
    generateOperationId "post" "/users/\x7bid\x7d" = "post_users_id" ∧
    generateOperationId "delete" "/users/\x7buserId\x7d/posts/\x7bpostId\x7d" =
      "delete_users_userid_posts_postid" := by
  refine ⟨?_, by decide, by decide, by decide⟩
  intro method path
  unfold generateOperationId claimOperationIdPath toLowerCodes
  rw [List.map_append, List.map_cons]
  simp [lowerCode]

/-! ## Claim C8: OpenAPI version gate -/

/-- Acceptance condition worded by the claim: the `openapi` field is a string
starting with `"3."`. -/
def claimVersionAccepted (spec : RawDoc) : Prop :=
  ∃ s, spec.openapi = some (JVal.str s) ∧ jsStartsWith s "3." = true

/-- C8: the gate accepts a document exactly when its `openapi` field is a
string starting with `"3."`; every other document is rejected with
INVALID_INPUT carrying the detected version value, and a document with
neither `openapi` nor `swagger` reports the literal `"unknown"`. -/
theorem openapiVersionGate_spec : ∀ spec : RawDoc,
    ((openapiVersionGate spec = ToolResponse.ok spec) ↔ claimVersionAccepted spec) ∧
    (¬ claimVersionAccepted spec →
      openapiVersionGate spec = ToolResponse.error "INVALID_INPUT"
        "Only OpenAPI 3.0 and 3.1 specifications are supported"
        [("provided_version", providedVersion spec)]) ∧
    (spec.openapi = none → spec.swagger = none → providedVersion spec = JVal.str "unknown") := by
  intro spec
  have hiff : isOpenAPIV3 spec = true ↔ claimVersionAccepted spec := by
    unfold isOpenAPIV3 claimVersionAccepted
    cases ho : spec.openapi with
    | none => simp
    | some v =>
      cases v with
      | str s =>
        constructor
        · intro h
          exact ⟨s, rfl, h⟩
        · rintro ⟨s', hs, h⟩
          cases hs
          exact h
      | num n => simp
      | bool b => simp
      | null => simp
  refine ⟨?_, ?_, ?_⟩
  · unfold openapiVersionGate
    cases hv : isOpenAPIV3 spec with
    | true =>
      simp only [hv, Bool.not_true, Bool.false_eq_true, if_false]
      simp only [true_iff, hiff.mp hv]
    | false =>
      simp only [hv, Bool.not_false, if_true]
      constructor
      · intro h
        exact absurd h (by simp)
      · intro hacc
        exact absurd (hiff.mpr hacc) (by simp [hv])
  · intro hn
    have hfalse : isOpenAPIV3 spec = false := by
      cases hv : isOpenAPIV3 spec
      · rfl
      · exact absurd (hiff.mp hv) hn
    unfold openapiVersionGate
    rw [hfalse]
    rfl
  · intro h1 h2
    unfold providedVersion
    rw [h1, h2]

/-- Swagger 2.0 document. -/
def swaggerDoc : RawDoc := { swagger := some (.str "2.0") }

/-- Witness for C8: the swagger-2.0 document is rejected reporting `"2.0"`, a
3.0.3 document is accepted, and an empty document reports `"unknown"`. -/
theorem openapiVersionGate_spec_witness :
    openapiVersionGate swaggerDoc = ToolResponse.error "INVALID_INPUT"
      "Only OpenAPI 3.0 and 3.1 specifications are supported"
      [("provided_version", JVal.str "2.0")] ∧
    openapiVersionGate { openapi := some (JVal.str "3.0.3") } =
      ToolResponse.ok { openapi := some (JVal.str "3.0.3") } ∧
    providedVersion {} = JVal.str "unknown" := by
  refine ⟨?_, ?_, ?_⟩
  · have hn : ¬ claimVersionAccepted swaggerDoc := by
      rintro ⟨s, hs, _⟩
      exact Option.noConfusion hs
    have h := (openapiVersionGate_spec swaggerDoc).2.1 hn
    rw [h]
    rfl
  · exact (openapiVersionGate_spec _).1.mpr ⟨"3.0.3", rfl, by decide⟩
  · exact (openapiVersionGate_spec _).2.2 rfl rfl

/-! ## Claim C9: fixed method order of path operations -/

/-- The method fields of the parsed operations are the upper-cased present
methods in the fixed enumeration order. -/
theorem filterMap_method_order (path : String) (pp : List RawParameter)
    (ops : SMap RawOperation) : ∀ ms : List String,
    ((ms.filterMap (fun method => (SMap.find? ops method).map
        (fun operation => parseOperation method path operation pp))).map ParsedOperation.method)
      = (ms.filter (fun m => (SMap.find? ops m).isSome)).map jsToUpper := by
  intro ms
  induction ms with
  | nil => rfl
  | cons m rest ih =>
    rw [List.filterMap_cons, List.filter_cons]
    cases hf : SMap.find? ops m with
    | none => simpa [hf] using ih
    | some op =>
      have hhead : ParsedOperation.method (parseOperation m path op pp) = jsToUpper m := rfl
      simp [hf, ih, hhead]

/-- `parsePathOperations` depends on a path item only through its per-method
lookups (and its parameters). -/
theorem filterMap_find_congr (path : String) (pp : List RawParameter)
    (ops1 ops2 : SMap RawOperation) : ∀ ms : List String,
    (∀ m ∈ ms, SMap.find? ops1 m = SMap.find? ops2 m) →
    ms.filterMap (fun method => (SMap.find? ops1 method).map
        (fun operation => parseOperation method path operation pp))
      = ms.filterMap (fun method => (SMap.find? ops2 method).map
        (fun operation => parseOperation method path operation pp)) := by
  intro ms
  induction ms with
  | nil => intro _; rfl
  | cons m rest ih =>
    intro h
    rw [List.filterMap_cons, List.filterMap_cons, h m (by simp),
      ih (fun x hx => h x (by simp [hx]))]

/-- C9: the operations of a parsed path item carry exactly the upper-cased
present methods, in the fixed order `get, put, post, delete, options, head,
patch, trace`, and the result is independent of the order in which the source
document lists the methods (it only depends on the per-method lookups and the
path-level parameters). -/
theorem parsePathOperations_method_order :
    (∀ (path : String) (item : RawPathItem),
       (parsePathOperations path item).map ParsedOperation.method =
         (httpMethods.filter (fun m => (SMap.find? item.ops m).isSome)).map jsToUpper) ∧
    (∀ (path : String) (item1 item2 : RawPathItem),
       (∀ m ∈ httpMethods, SMap.find? item1.ops m = SMap.find? item2.ops m) →
       item1.parameters = item2.parameters →
       parsePathOperations path item1 = parsePathOperations path item2) := by
  constructor
  · intro path item
    exact filterMap_method_order path (item.parameters.getD []) item.ops httpMethods
  · intro path item1 item2 hfind hpp
    unfold parsePathOperations
    rw [hpp]
    exact filterMap_find_congr path (item2.parameters.getD []) item1.ops item2.ops httpMethods hfind

/-- Minimal raw operation A. -/
def rawOpA : RawOperation := { operationId := some "opA" }

/-- Minimal raw operation B. -/
def rawOpB : RawOperation := { operationId := some "opB" }

/-- Path item listing post before get. -/
def itemPostGet : RawPathItem := { ops := [("post", rawOpB), ("get", rawOpA)] }

/-- Path item listing get before post. -/
def itemGetPost : RawPathItem := { ops := [("get", rawOpA), ("post", rawOpB)] }

/-- Witness for C9: the two key orders parse identically, and the emitted
methods are GET then POST regardless of the document order. -/
theorem parsePathOperations_method_order_witness :
    parsePathOperations "/x" itemPostGet = parsePathOperations "/x" itemGetPost ∧
    (parsePathOperations "/x" itemPostGet).map ParsedOperation.method = ["GET", "POST"] := by
  constructor
  · refine (parsePathOperations_method_order).2 "/x" itemPostGet itemGetPost ?_ rfl
    intro m hm
    fin_cases hm <;> rfl
  · rw [(parsePathOperations_method_order).1 "/x" itemPostGet]
    decide

/-! ## Claim C10: default string schema for schema-less parameters -/

/-- C10: an inline parameter without a `schema` key parses to a parameter
whose schema is exactly `\x7btype: "string"\x7d`, and that parameter is kept in the
`parseParameters` output. -/
theorem parseParameters_schema_default :
    ∀ (parameters : List RawParameter) (p : RawParameter),
      p ∈ parameters → p.ref = none → p.schema = none →
      (parseParameterObject p).schema = psLeaf { type := some "string" } ∧
      parseParameterObject p ∈ parseParameters parameters := by
  intro parameters p hmem href hschema
  constructor
  · show (parseParameterObject p).schema = psLeaf { type := some "string" }
    unfold parseParameterObject
    rw [hschema]
    rfl
  · unfold parseParameters
    exact List.mem_map_of_mem _ (List.mem_filter.mpr ⟨hmem, by rw [href]; rfl⟩)

/-- Schema-less query parameter. -/
def c10param : RawParameter := { name := "q", inLoc := "query" }

/-- Witness for C10: the concrete schema-less parameter gets the string schema
and survives parsing. -/
theorem parseParameters_schema_default_witness :
    (parseParameterObject c10param).schema = psLeaf { type := some "string" } ∧
    parseParameterObject c10param ∈ parseParameters [c10param] :=
  parseParameters_schema_default [c10param] c10param (by simp) rfl rfl

/-! ## Map lemmas shared by the request-body claims -/

/-- Inserting a key makes the map contain it. -/
theorem SMap.contains_insert_self {α : Type} (m : SMap α) (k : String) (v : α) :
    SMap.contains (SMap.insert m k v) k = true := by
  induction m with
  | nil => simp [SMap.insert, SMap.contains, SMap.find?]
  | cons kv rest ih =>
    obtain ⟨k1, v1⟩ := kv
    by_cases h : k1 = k
    · simp [SMap.insert, h, SMap.contains, SMap.find?]
    · simpa [SMap.insert, h, SMap.contains, SMap.find?] using ih

/-- Insertion never removes keys. -/
theorem SMap.contains_insert_of {α : Type} {m : SMap α} {k' : String} (k : String) (v : α)
    (h : SMap.contains m k' = true) : SMap.contains (SMap.insert m k v) k' = true := by
  induction m with
  | nil => simp [SMap.contains, SMap.find?] at h
  | cons kv rest ih =>
    obtain ⟨k1, v1⟩ := kv
    simp only [SMap.contains, SMap.find?] at h
    by_cases hk : k1 = k
    · subst hk
      simp only [SMap.insert, if_pos rfl]
      by_cases hk' : k1 = k'
      · simp [SMap.contains, SMap.find?, hk']
      · simp only [if_neg hk'] at h
        simp only [SMap.contains, SMap.find?, if_neg hk']
        exact h
    · simp only [SMap.insert, if_neg hk]
      by_cases hk' : k1 = k'
      · simp [SMap.contains, SMap.find?, hk']
      · simp only [if_neg hk'] at h
        simp only [SMap.contains, SMap.find?, if_neg hk']
        exact ih h

/-- Merging body properties never removes keys already present. -/
theorem mergeBodyProperties_contains (bodyProps : List (String × JSONSchema)) :
    ∀ (props : SMap JSONSchema) (k : String), SMap.contains props k = true →
      SMap.contains (mergeBodyProperties bodyProps props) k = true := by
  induction bodyProps with
  | nil => intro props k h; exact h
  | cons kv rest ih =>
    intro props k h
    have hstep : mergeBodyProperties (kv :: rest) props =
        mergeBodyProperties rest
          (SMap.insert props (if SMap.contains props kv.1 then "body_" ++ kv.1 else kv.1) kv.2) := rfl
    rw [hstep]
    exact ih _ k (SMap.contains_insert_of _ _ h)

/-- The parameter loop keeps every key it has seen, and every parameter name
ends up among its keys. -/
theorem addParams_some_spec (fuel : Nat) (schemas : SMap ParsedSchema) :
    ∀ (ps : List ParsedParameter) (acc acc' : SMap JSONSchema × List String),
      addParams fuel schemas ps acc = some acc' →
      (∀ k, SMap.contains acc.1 k = true → SMap.contains acc'.1 k = true) ∧
      (∀ p ∈ ps, SMap.contains acc'.1 p.name = true) := by
  intro ps
  induction ps with
  | nil =>
    intro acc acc' h
    cases h
    exact ⟨fun _ hk => hk, fun p hp => absurd hp (List.not_mem_nil p)⟩
  | cons param rest ih =>
    intro acc acc' h
    simp only [addParams] at h
    cases hc : convertSchemaToJSONSchema fuel param.schema schemas with
    | none => rw [hc] at h; exact absurd h (by simp)
    | some converted =>
      rw [hc] at h
      obtain ⟨hmono, hmem⟩ := ih _ _ h
      refine ⟨fun k hk => hmono k (SMap.contains_insert_of _ _ hk), ?_⟩
      intro p hp
      rcases List.mem_cons.mp hp with rfl | hp'
      · exact hmono p.name (SMap.contains_insert_self _ _ _)
      · exact hmem p hp'

/-! ## Claim C1: request-body flattening and wrapping -/

/-- C1: when the selected converted body schema has type `"object"` with a
properties mapping, the body properties are merged into the parameter-derived
properties with the `body_` re-keying on collision (and every parameter name
stays present); otherwise a single `body` property holds the whole converted
schema — carrying the request body's (truthy) description — and `"body"` is
pushed onto the required list exactly when the request body is required. -/
theorem operationToTool_body_handling
    (fuel : Nat) (operation : ParsedOperation) (schemas : SMap ParsedSchema)
    (rb : ParsedRequestBody) (ct : MediaObject) (bodySchema : JSONSchema)
    (tool : MCPToolSchema) (acc : SMap JSONSchema × List String)
    (hacc : addParams fuel schemas operation.parameters ([], []) = some acc)
    (hrb : operation.request_body = some rb)
    (hct : selectBodyContent rb.content = some ct)
    (hbody : convertSchemaToJSONSchema fuel ct.schema schemas = some bodySchema)
    (htool : operationToTool fuel operation schemas = some tool) :
    (∀ bprops, bodySchema.type = some "object" → bodySchema.properties = some bprops →
       tool.inputSchema.properties = mergeBodyProperties bprops acc.1 ∧
       ∀ p ∈ operation.parameters, SMap.contains tool.inputSchema.properties p.name = true) ∧
    (¬ (bodySchema.type = some "object" ∧ bodySchema.properties.isSome = true) →
       tool.inputSchema.properties = SMap.insert acc.1 "body" (applyDescription bodySchema rb.description) ∧
       tool.inputSchema.required = acc.2 ++ (if rb.required then ["body"] else [])) := by
  simp only [operationToTool, requestBodyStep, hacc, hrb, hct, hbody] at htool
  by_cases hcond : bodySchema.type = some "object" ∧ bodySchema.properties.isSome = true
  · rw [if_pos hcond] at htool
    cases htool
    constructor
    · intro bprops hty hbp
      constructor
      · show mergeBodyProperties (bodySchema.properties.getD []) acc.1 = mergeBodyProperties bprops acc.1
        rw [hbp]
        rfl
      · intro p hp
        have hc := (addParams_some_spec fuel schemas operation.parameters ([], []) acc hacc).2 p hp
        show SMap.contains (mergeBodyProperties (bodySchema.properties.getD []) acc.1) p.name = true
        exact mergeBodyProperties_contains _ _ _ hc
    · intro hn
      exact absurd hcond hn
  · rw [if_neg hcond] at htool
    cases htool
    constructor
    · intro bprops hty hbp
      exact absurd ⟨hty, by rw [hbp]; rfl⟩ hcond
    · intro _
      exact ⟨rfl, rfl⟩

/-- Required list of an optional tool. -/
def toolRequiredOf (o : Option MCPToolSchema) : Option (List String) :=
  o.map (fun t => t.inputSchema.required)

/-- Property keys of an optional tool. -/
def toolPropKeysOf (o : Option MCPToolSchema) : Option (List String) :=
  o.map (fun t => SMap.keysOf t.inputSchema.properties)

/-- Flattenable body schema: object with a `name` field, required. -/
def c1bodyPS : ParsedSchema := psObject [("name", psString)] (some ["name"])

/-- Required JSON request body around `c1bodyPS`. -/
def c1rb : ParsedRequestBody :=
  { required := true, content := [("application/json", ⟨c1bodyPS⟩)] }

/-- Required path parameter `id`. -/
def c1param : ParsedParameter :=
  { name := "id", inLoc := "path", required := true, schema := psString }

/-- Operation with one parameter and a flattenable required body. -/
def c1op : ParsedOperation :=
  { method := "POST", operation_id := "createUser", parameters := [c1param],
    request_body := some c1rb }

/-- Converted body schema of `c1op`. -/
def c1bodyJS : JSONSchema := (convertSchemaToJSONSchema 5 c1bodyPS []).getD genericObjectSchema

/-- Parameter-loop accumulator of `c1op`. -/
def c1acc : SMap JSONSchema × List String :=
  (addParams 5 [] c1op.parameters ([], [])).getD ([], [])

/-- Generated tool of `c1op`. -/
def c1tool : MCPToolSchema := (operationToTool 5 c1op []).getD mtDefault

/-- Witness for C1: the flattened tool exposes `id` and `name` side by side,
with the parameter slot preserved. -/
theorem operationToTool_body_handling_witness :
    toolPropKeysOf (operationToTool 5 c1op []) = some ["id", "name"] ∧
    SMap.contains c1tool.inputSchema.properties "id" = true := by
  have h := operationToTool_body_handling 5 c1op [] c1rb ⟨c1bodyPS⟩ c1bodyJS c1tool c1acc
    rfl rfl rfl rfl rfl
  have h1 := h.1 (c1bodyJS.properties.getD []) rfl rfl
  constructor
  · calc toolPropKeysOf (operationToTool 5 c1op [])
        = some (SMap.keysOf c1tool.inputSchema.properties) := rfl
      _ = some (SMap.keysOf (mergeBodyProperties (c1bodyJS.properties.getD []) c1acc.1)) := by
          rw [h1.1]
      _ = some ["id", "name"] := rfl
  · exact h1.2 c1param (List.mem_singleton.mpr rfl)

/-! ## Claim C2: body required-field merging -/

/-- Duplicate-skipping append keeps the required list duplicate-free. -/
theorem mergeBodyRequired_nodup (props : SMap JSONSchema) :
    ∀ (bodyReq req : List String), req.Nodup → (mergeBodyRequired props bodyReq req).Nodup := by
  intro bodyReq
  induction bodyReq with
  | nil => intro req h; exact h
  | cons n rest ih =>
    intro req h
    have hstep : mergeBodyRequired props (n :: rest) req =
        mergeBodyRequired props rest
          (if req.contains (if SMap.contains props n then n else "body_" ++ n) then req
           else req ++ [if SMap.contains props n then n else "body_" ++ n]) := rfl
    rw [hstep]
    apply ih
    cases hcc : req.contains (if SMap.contains props n then n else "body_" ++ n) with
    | true => simpa [hcc] using h
    | false =>
      simp only [Bool.false_eq_true, if_false]
      rw [List.nodup_append]
      refine ⟨h, List.nodup_singleton _, ?_⟩
      intro a ha hb
      rw [List.mem_singleton] at hb
      subst hb
      have h2 : req.contains (if SMap.contains props n then n else "body_" ++ n) = true :=
        List.elem_iff.mpr ha
      rw [hcc] at h2
      cases h2

/-- C2 (amended): when the request body is required and the body schema
flattens, each of its required names is pushed with the unprefixed name
whenever that name exists in the merged properties map — which is the case
both for a plainly merged field and for a field that collided with a
parameter, so a collided name marks the parameter-named slot — and with the
`body_` prefix only when the name is absent from the merged map entirely;
duplicates are skipped, so a duplicate-free list stays duplicate-free. -/
theorem operationToTool_required_merge
    (fuel : Nat) (operation : ParsedOperation) (schemas : SMap ParsedSchema)
    (rb : ParsedRequestBody) (ct : MediaObject) (bodySchema : JSONSchema)
    (tool : MCPToolSchema) (acc : SMap JSONSchema × List String)
    (bprops : List (String × JSONSchema)) (breq : List String)
    (hacc : addParams fuel schemas operation.parameters ([], []) = some acc)
    (hrb : operation.request_body = some rb)
    (hct : selectBodyContent rb.content = some ct)
    (hbody : convertSchemaToJSONSchema fuel ct.schema schemas = some bodySchema)
    (hty : bodySchema.type = some "object")
    (hbp : bodySchema.properties = some bprops)
    (hbr : bodySchema.required = some breq)
    (hreq : rb.required = true)
    (htool : operationToTool fuel operation schemas = some tool) :
    tool.inputSchema.required = mergeBodyRequired (mergeBodyProperties bprops acc.1) breq acc.2 ∧
    (acc.2.Nodup → tool.inputSchema.required.Nodup) := by
  simp only [operationToTool, requestBodyStep, hacc, hrb, hct, hbody] at htool
  rw [if_pos ⟨hty, by rw [hbp]; rfl⟩] at htool
  rw [if_pos ⟨by rw [hbr]; rfl, hreq⟩] at htool
  cases htool
  constructor
  · show mergeBodyRequired (mergeBodyProperties (bodySchema.properties.getD []) acc.1)
        (bodySchema.required.getD []) acc.2 = _
    rw [hbp, hbr]
    rfl
  · intro hnd
    show (mergeBodyRequired (mergeBodyProperties (bodySchema.properties.getD []) acc.1)
        (bodySchema.required.getD []) acc.2).Nodup
    exact mergeBodyRequired_nodup _ _ _ hnd

/-- Flattenable body schema colliding with the parameter `x`. -/
def c2bodyPS : ParsedSchema := psObject [("x", psString)] (some ["x"])

/-- Required JSON request body around `c2bodyPS`. -/
def c2rb : ParsedRequestBody :=
  { required := true, content := [("application/json", ⟨c2bodyPS⟩)] }

/-- Operation with an optional parameter `x` and a required body whose
required field `x` collides with it. -/
def c2op : ParsedOperation :=
  { method := "POST", operation_id := "post_x",
    parameters := [{ name := "x", inLoc := "query", required := false, schema := psString }],
    request_body := some c2rb }

/-- Counterexample for C2 as stated: the body field `x` collides with the
parameter `x` (it is re-keyed to `body_x` among the properties), yet the
required list receives the unprefixed `"x"` — the parameter-named slot — and
not the claimed `"body_x"`. -/
theorem operationToTool_required_prefix_counterexample :
    toolRequiredOf (operationToTool 5 c2op []) = some ["x"] ∧
    toolPropKeysOf (operationToTool 5 c2op []) = some ["x", "body_x"] ∧
    toolRequiredOf (operationToTool 5 c2op []) ≠ some ["body_x"] := by
  exact ⟨rfl, rfl, by decide⟩

/-- Converted body schema of `c2op`. -/
def c2bodyJS : JSONSchema := (convertSchemaToJSONSchema 5 c2bodyPS []).getD genericObjectSchema

/-- Parameter-loop accumulator of `c2op`. -/
def c2acc : SMap JSONSchema × List String :=
  (addParams 5 [] c2op.parameters ([], [])).getD ([], [])

/-- Generated tool of `c2op`. -/
def c2tool : MCPToolSchema := (operationToTool 5 c2op []).getD mtDefault

/-- Witness for C2 (amended): on the colliding operation the merge rule yields
exactly `["x"]`, and the resulting required list is duplicate-free. -/
theorem operationToTool_required_merge_witness :
    toolRequiredOf (operationToTool 5 c2op []) = some ["x"] ∧
    c2tool.inputSchema.required.Nodup := by
  have h := operationToTool_required_merge 5 c2op [] c2rb ⟨c2bodyPS⟩ c2bodyJS c2tool c2acc
    (c2bodyJS.properties.getD []) (c2bodyJS.required.getD [])
    rfl rfl rfl rfl rfl rfl rfl rfl rfl
  constructor
  · calc toolRequiredOf (operationToTool 5 c2op [])
        = some c2tool.inputSchema.required := rfl
      _ = some (mergeBodyRequired (mergeBodyProperties (c2bodyJS.properties.getD []) c2acc.1)
            (c2bodyJS.required.getD []) c2acc.2) := by rw [h.1]
      _ = some ["x"] := rfl
  · exact h.2 (by decide)

/-! ## Claim C3: allOf merging -/

/-- The allOf merge as worded by the spec: start from an object schema with
empty properties and empty required; convert each member recursively; union
its properties into the accumulator (later members overwrite same-named
earlier properties) and concatenate (without de-duplication) its required
names; the merged result replaces the whole node. -/
def claimAllOfMerge (fuel : Nat) (members : List ParsedSchema)
    (allSchemas : SMap ParsedSchema) : Option JSONSchema :=
  ((members.foldlM
      (fun acc member =>
        (convertSchemaToJSONSchema fuel member allSchemas).map
          (fun converted =>
            ((match converted.properties with
              | some cp => SMap.spread acc.1 cp
              | none => acc.1),
             (match converted.required with
              | some cr => acc.2 ++ cr
              | none => acc.2))))
      (([] : SMap JSONSchema), ([] : List String))).map
    (fun acc =>
      JSONSchema.mk { type := some "object", required := some acc.2 } (some acc.1)
        none none none none))

/-- The source's accumulation loop is the claimed fold. -/
theorem allOfAccumulate_eq_foldlM (conv : ParsedSchema → Option JSONSchema) :
    ∀ (members : List ParsedSchema) (props : SMap JSONSchema) (req : List String),
      allOfAccumulate conv members props req =
        ((members.foldlM
            (fun acc member =>
              (conv member).map
                (fun converted =>
                  ((match converted.properties with
                    | some cp => SMap.spread acc.1 cp
                    | none => acc.1),
                   (match converted.required with
                    | some cr => acc.2 ++ cr
                    | none => acc.2))))
            (props, req)).map
          (fun acc =>
            JSONSchema.mk { type := some "object", required := some acc.2 } (some acc.1)
              none none none none)) := by
  intro members
  induction members with
  | nil => intro props req; rfl
  | cons sub rest ih =>
    intro props req
    rw [List.foldlM_cons]
    cases hc : conv sub with
    | none => simp [allOfAccumulate, hc]
    | some converted => simp [allOfAccumulate, hc, ih]

/-- C3 (amended): for every `ParsedSchema` bearing an allOf list and no
(truthy) `$ref` — a `$ref` sibling takes priority and is resolved instead —
a successful conversion returns exactly the claimed merge of the members. -/
theorem convert_allOf_merge (fuel : Nat) (schema : ParsedSchema)
    (allSchemas : SMap ParsedSchema) (members : List ParsedSchema) (j : JSONSchema)
    (href : truthyStrOpt schema.ref = false)
    (hall : schema.allOf = some members)
    (hj : convertSchemaToJSONSchema (fuel + 1) schema allSchemas = some j) :
    claimAllOfMerge fuel members allSchemas = some j := by
  simp only [convertSchemaToJSONSchema, href, Bool.false_eq_true, if_false] at hj
  cases hp : optPropsConvert (fun s => convertSchemaToJSONSchema fuel s allSchemas) schema.properties with
  | none => rw [hp] at hj; exact absurd hj (by simp)
  | some props =>
    rw [hp] at hj
    cases hi : optOneConvert (fun s => convertSchemaToJSONSchema fuel s allSchemas) schema.items with
    | none => rw [hi] at hj; exact absurd hj (by simp)
    | some itms =>
      rw [hi] at hj
      cases ho : optListConvert (fun s => convertSchemaToJSONSchema fuel s allSchemas) schema.oneOf with
      | none => rw [ho] at hj; exact absurd hj (by simp)
      | some oneOfC =>
        rw [ho] at hj
        cases ha : optListConvert (fun s => convertSchemaToJSONSchema fuel s allSchemas) schema.anyOf with
        | none => rw [ha] at hj; exact absurd hj (by simp)
        | some anyOfC =>
          rw [ha] at hj
          simp only [hall] at hj
          rw [allOfAccumulate_eq_foldlM] at hj
          exact hj

/-- allOf member used by the C3 counterexample. -/
def c3member : ParsedSchema := psObject [("p", psString)] none

/-- Schema carrying both a resolvable `$ref` and an allOf list. -/
def c3schema : ParsedSchema :=
  ParsedSchema.mk { ref := some "#/components/schemas/A" } none none none none
    (some [c3member]) none

/-- Components mapping resolving A to a string schema. -/
def c3m : SMap ParsedSchema := [("A", psString)]

/-- Counterexample for C3 as stated: on a schema bearing both a `$ref` and an
allOf list the converter resolves the reference (yielding the string schema)
instead of returning the claimed merge (an object schema), so the two differ. -/
theorem convert_allOf_ref_counterexample :
    (convertSchemaToJSONSchema 5 c3schema c3m).map JSONSchema.type = some (some "string") ∧
    (claimAllOfMerge 4 [c3member] c3m).map JSONSchema.type = some (some "object") ∧
    convertSchemaToJSONSchema 5 c3schema c3m ≠ claimAllOfMerge 4 [c3member] c3m := by
  refine ⟨rfl, rfl, ?_⟩
  intro h
  have h1 : (convertSchemaToJSONSchema 5 c3schema c3m).map JSONSchema.type = some (some "string") := rfl
  rw [h] at h1
  have h2 : (claimAllOfMerge 4 [c3member] c3m).map JSONSchema.type = some (some "object") := rfl
  rw [h1] at h2
  exact absurd h2 (by decide)

/-- Disjoint object members for the C3 witness. -/
def c3wMembers : List ParsedSchema :=
  [psObject [("a", psString)] (some ["a"]), psObject [("b", psString)] (some ["b"])]

/-- Plain allOf schema over the disjoint members. -/
def c3w : ParsedSchema := ParsedSchema.mk {} none none none none (some c3wMembers) none

/-- Expected merge: union of the properties, concatenation of the required lists. -/
def c3wExpected : JSONSchema :=
  JSONSchema.mk { type := some "object", required := some ["a", "b"] }
    (some [("a", jsString), ("b", jsString)]) none none none none

/-- Witness for C3 (amended): an allOf of two disjoint object schemas converts
to one object schema whose properties are the union and whose required list is
the concatenation, and the claimed merge agrees. -/
theorem convert_allOf_merge_witness :
    convertSchemaToJSONSchema 5 c3w [] = some c3wExpected ∧
    claimAllOfMerge 4 c3wMembers [] = some c3wExpected :=
  ⟨rfl, convert_allOf_merge 4 c3w [] c3wMembers c3wExpected rfl rfl rfl⟩

/-! ## Claim C7: tool count and input-schema shape -/

/-- A successful `mapM` over `Option` preserves length. -/
theorem optionMapM_length {α β : Type} (f : α → Option β) :
    ∀ (l : List α) (l' : List β), l.mapM f = some l' → l'.length = l.length := by
  intro l
  induction l with
  | nil =>
    intro l' h
    rw [List.mapM_nil] at h
    cases h
    rfl
  | cons a rest ih =>
    intro l' h
    rw [List.mapM_cons] at h
    cases hfa : f a with
    | none => rw [hfa] at h; simp at h
    | some b =>
      rw [hfa] at h
      cases hrest : rest.mapM f with
      | none => rw [hrest] at h; simp at h
      | some bs =>
        rw [hrest] at h
        simp only [Option.some_bind, Option.pure_def] at h
        cases h
        simp [ih bs hrest]

/-- Every element of a successful `mapM` image comes from some source element. -/
theorem optionMapM_mem {α β : Type} (f : α → Option β) :
    ∀ (l : List α) (l' : List β), l.mapM f = some l' →
      ∀ b ∈ l', ∃ a ∈ l, f a = some b := by
  intro l
  induction l with
  | nil =>
    intro l' h
    rw [List.mapM_nil] at h
    cases h
    intro b hb
    exact absurd hb (List.not_mem_nil b)
  | cons a rest ih =>
    intro l' h
    rw [List.mapM_cons] at h
    cases hfa : f a with
    | none => rw [hfa] at h; simp at h
    | some b0 =>
      rw [hfa] at h
      cases hrest : rest.mapM f with
      | none => rw [hrest] at h; simp at h
      | some bs =>
        rw [hrest] at h
        simp only [Option.some_bind, Option.pure_def] at h
        cases h
        intro b hb
        rcases List.mem_cons.mp hb with rfl | hb'
        · exact ⟨a, List.mem_cons_self a rest, hfa⟩
        · obtain ⟨a', ha', hfa'⟩ := ih bs hrest b hb'
          exact ⟨a', List.mem_cons_of_mem a ha', hfa'⟩

/-- Every generated tool's input schema has type `"object"`. -/
theorem operationToTool_type (fuel : Nat) (operation : ParsedOperation)
    (schemas : SMap ParsedSchema) (t : MCPToolSchema)
    (h : operationToTool fuel operation schemas = some t) :
    t.inputSchema.type = "object" := by
  simp only [operationToTool] at h
  cases h1 : addParams fuel schemas operation.parameters ([], []) with
  | none =>
    simp only [h1] at h
    exact Option.noConfusion h
  | some acc =>
    simp only [h1] at h
    cases h2 : requestBodyStep fuel schemas operation.request_body acc with
    | none =>
      simp only [h2] at h
      exact Option.noConfusion h
    | some acc2 =>
      simp only [h2] at h
      cases h
      rfl

/-- C7 (amended): whenever `generateToolSchemas` succeeds — which a document
with a cyclic reference chain prevents, see the counterexample — it returns
exactly one tool per operation, `total_tools` equal to that count, and every
tool's `inputSchema.type` equal to `"object"`. -/
theorem generateToolSchemas_success_spec (fuel : Nat) (parsedSpec : ParsedOpenAPISpec)
    (r : GeneratedTools)
    (h : generateToolSchemas fuel parsedSpec = ToolResponse.ok r) :
    r.tools.length = (specOperations parsedSpec).length ∧
    r.summary.total_tools = (specOperations parsedSpec).length ∧
    ∀ tool ∈ r.tools, tool.inputSchema.type = "object" := by
  simp only [generateToolSchemas] at h
  cases hm : (specOperations parsedSpec).mapM
      (fun operation => operationToTool fuel operation parsedSpec.schemas) with
  | none => rw [hm] at h; exact absurd h (by simp)
  | some tools =>
    rw [hm] at h
    cases h
    have hlen := optionMapM_length _ _ _ hm
    refine ⟨hlen, hlen, ?_⟩
    intro tool ht
    obtain ⟨op, _, hop⟩ := optionMapM_mem _ _ _ hm tool ht
    exact operationToTool_type _ _ _ _ hop

/-- Cyclic components mapping: A refers to itself. -/
def cycSchemas : SMap ParsedSchema := [("A", psLeaf { ref := some "#/components/schemas/A" })]

/-- Operation whose parameter schema enters the cycle. -/
def cycOperation : ParsedOperation :=
  { method := "GET", operation_id := "get_x",
    parameters := [{ name := "x", inLoc := "query", required := false,
                     schema := psLeaf { ref := some "#/components/schemas/A" } }] }

/-- One-operation document over the cyclic mapping. -/
def cycSpec : ParsedOpenAPISpec :=
  { openapi_version := "3.0.0", info := ⟨"t", "1", none⟩,
    paths := [⟨"/x", [cycOperation]⟩], schemas := cycSchemas }

/-- Counterexample for C7 as stated: on the one-operation document whose
parameter schema sits on a cyclic `$ref` chain, the conversion recursion never
terminates (here: exhausts any stack budget — shown at depth 50, and the
self-referential resolution step repeats identically at every depth), so the
caught failure yields an INTERNAL_ERROR envelope instead of the claimed
success with one tool. -/
theorem generateToolSchemas_cyclic_counterexample :
    generateToolSchemas 50 cycSpec =
      ToolResponse.error "INTERNAL_ERROR" "Failed to generate tool schemas" [] := rfl

/-- Operation with no parameters and no body. -/
def w7op : ParsedOperation := { method := "GET", operation_id := "get_ping", parameters := [] }

/-- One-operation document without references. -/
def w7spec : ParsedOpenAPISpec :=
  { openapi_version := "3.0.0", info := ⟨"t", "1", none⟩,
    paths := [⟨"/ping", [w7op]⟩], schemas := [] }

/-- Successful generation result on `w7spec`. -/
def w7r : GeneratedTools := (responseData (generateToolSchemas 1 w7spec)).getD ⟨[], ⟨0, []⟩⟩

/-- Input-schema types of the generated tools. -/
def inputTypesOf (g : GeneratedTools) : List String :=
  g.tools.map (fun t => t.inputSchema.type)

/-- Witness for C7 (amended): the reference-free document generates exactly
one tool with the counted total and an object-typed input schema. -/
theorem generateToolSchemas_success_spec_witness :
    generateToolSchemas 1 w7spec = ToolResponse.ok w7r ∧
    w7r.tools.length = 1 ∧ w7r.summary.total_tools = 1 ∧ inputTypesOf w7r = ["object"] := by
  have h := generateToolSchemas_success_spec 1 w7spec w7r rfl
  refine ⟨rfl, ?_, ?_, by decide⟩
  · rw [h.1]; rfl
  · rw [h.2.1]; rfl

/-! ## Claim C5: sanitizeToolName output shape and idempotence -/

/-- Character class `[a-z0-9_-]` of the claimed output regex, on code units. -/
def lowerToolCharCode (u : Nat) : Bool :=
  (97 ≤ u && u ≤ 122) || (48 ≤ u && u ≤ 57) || u = 95 || u = 45

/-- The head, if any, is not an underscore. -/
def headNot95 : List Nat → Bool
  | [] => true
  | u :: _ => u ≠ 95

/-- No two adjacent underscores. -/
def NoDoubleUnd (l : List Nat) : Prop :=
  l.Chain' (fun a b => ¬ (a = 95 ∧ b = 95))

/-- Every code unit of the replacement step is in the kept class. -/
theorem replaceBadChars_charset (l : List Nat) :
    ∀ u ∈ replaceBadChars l, toolNameCharCode u = true := by
  intro u hu
  rcases List.mem_map.mp hu with ⟨c, _, rfl⟩
  by_cases hc : toolNameCharCode c = true
  · rw [if_pos hc]; exact hc
  · rw [if_neg hc]; decide

/-- Collapsing only removes code units. -/
theorem collapse_subset : ∀ l : List Nat, ∀ u ∈ collapseUnderscores l, u ∈ l := by
  intro l
  induction l with
  | nil => intro u hu; exact absurd hu (List.not_mem_nil u)
  | cons a rest ih =>
    cases rest with
    | nil => intro u hu; exact hu
    | cons b r =>
      intro u hu
      simp only [collapseUnderscores] at hu
      by_cases hab : a = 95 ∧ b = 95
      · rw [if_pos hab] at hu
        exact List.mem_cons_of_mem a (ih u hu)
      · rw [if_neg hab] at hu
        rcases List.mem_cons.mp hu with rfl | hu'
        · exact List.mem_cons_self _ _
        · exact List.mem_cons_of_mem a (ih u hu')

/-- Collapsing a nonempty list keeps its head. -/
theorem collapse_head? : ∀ (r : List Nat) (b : Nat),
    (collapseUnderscores (b :: r)).head? = some b := by
  intro r
  induction r with
  | nil => intro b; rfl
  | cons c r' ih =>
    intro b
    simp only [collapseUnderscores]
    by_cases hbc : b = 95 ∧ c = 95
    · rw [if_pos hbc, ih c, hbc.2, hbc.1]
    · rw [if_neg hbc]
      rfl

/-- Collapsing leaves no two adjacent underscores. -/
theorem collapse_noDouble : ∀ l : List Nat, NoDoubleUnd (collapseUnderscores l) := by
  intro l
  induction l with
  | nil => exact List.chain'_nil
  | cons a rest ih =>
    cases rest with
    | nil => exact List.chain'_singleton a
    | cons b r =>
      simp only [collapseUnderscores]
      by_cases hab : a = 95 ∧ b = 95
      · rw [if_pos hab]; exact ih
      · rw [if_neg hab]
        unfold NoDoubleUnd
        rw [List.chain'_cons']
        refine ⟨?_, ih⟩
        intro y hy
        rw [Option.mem_def, collapse_head? r b] at hy
        cases hy
        exact hab

/-- A list with no adjacent underscores is a collapse fixed point. -/
theorem collapse_fix : ∀ l : List Nat, NoDoubleUnd l → collapseUnderscores l = l := by
  intro l
  induction l with
  | nil => intro _; rfl
  | cons a rest ih =>
    cases rest with
    | nil => intro _; rfl
    | cons b r =>
      intro h
      unfold NoDoubleUnd at h
      rw [List.chain'_cons] at h
      simp only [collapseUnderscores]
      rw [if_neg h.1, ih h.2]

/-- Boolean head test versus the head option. -/
theorem headNot95_iff (l : List Nat) : headNot95 l = true ↔ l.head? ≠ some 95 := by
  cases l with
  | nil => simp [headNot95]
  | cons u rest => simp [headNot95]

/-- Dropping the single leading underscore of an underscore-collapsed list
leaves a head that is not an underscore. -/
theorem dropLead_headNot95 (l : List Nat) (h : NoDoubleUnd l) :
    headNot95 (dropLeadUnderscore l) = true := by
  cases l with
  | nil => rfl
  | cons u rest =>
    by_cases hu : u = 95
    · simp only [dropLeadUnderscore, if_pos hu]
      cases rest with
      | nil => rfl
      | cons v r' =>
        unfold NoDoubleUnd at h
        rw [hu, List.chain'_cons] at h
        have hv : v ≠ 95 := fun hv => h.1 ⟨rfl, hv⟩
        simp [headNot95, hv]
    · simp [dropLeadUnderscore, if_neg hu, headNot95, hu]

/-- Dropping the leading underscore preserves underscore-collapsedness. -/
theorem dropLead_noDouble (l : List Nat) (h : NoDoubleUnd l) :
    NoDoubleUnd (dropLeadUnderscore l) := by
  cases l with
  | nil => exact h
  | cons u rest =>
    by_cases hu : u = 95
    · simp only [dropLeadUnderscore, if_pos hu]
      exact List.Chain'.tail h
    · simpa only [dropLeadUnderscore, if_neg hu] using h

/-- Dropping the leading underscore only removes code units. -/
theorem dropLead_subset (l : List Nat) : ∀ u ∈ dropLeadUnderscore l, u ∈ l := by
  cases l with
  | nil => intro u hu; exact hu
  | cons a rest =>
    by_cases ha : a = 95
    · simp only [dropLeadUnderscore, if_pos ha]
      intro u hu
      exact List.mem_cons_of_mem a hu
    · simp only [dropLeadUnderscore, if_neg ha]
      intro u hu
      exact hu

/-- Dropping the leading underscore cannot create a trailing underscore. -/
theorem dropLead_getLast?_ne (l : List Nat) (h : l.getLast? ≠ some 95) :
    (dropLeadUnderscore l).getLast? ≠ some 95 := by
  cases l with
  | nil => exact h
  | cons u rest =>
    by_cases hu : u = 95
    · simp only [dropLeadUnderscore, if_pos hu]
      cases rest with
      | nil => simp
      | cons v r' =>
        rw [List.getLast?_cons_cons] at h
        exact h
    · simpa only [dropLeadUnderscore, if_neg hu] using h

/-- Adjacent-underscore freedom is symmetric under reversal. -/
theorem noDouble_reverse (l : List Nat) (h : NoDoubleUnd l) : NoDoubleUnd l.reverse := by
  unfold NoDoubleUnd
  rw [List.chain'_reverse]
  exact List.Chain'.imp (fun a b hab hc => hab ⟨hc.2, hc.1⟩) h

/-- Edge trimming of an underscore-collapsed list yields a list with
underscore-free edges, still collapsed, and made of original code units. -/
theorem trimEdge_spec (l : List Nat) (h : NoDoubleUnd l) :
    headNot95 (trimEdgeUnderscores l) = true ∧
    (trimEdgeUnderscores l).getLast? ≠ some 95 ∧
    NoDoubleUnd (trimEdgeUnderscores l) ∧
    (∀ u ∈ trimEdgeUnderscores l, u ∈ l) := by
  unfold trimEdgeUnderscores
  have hAnd : NoDoubleUnd (dropLeadUnderscore l) := dropLead_noDouble l h
  have hAhead : headNot95 (dropLeadUnderscore l) = true := dropLead_headNot95 l h
  have hBnd : NoDoubleUnd (dropLeadUnderscore (dropLeadUnderscore l).reverse) :=
    dropLead_noDouble _ (noDouble_reverse _ hAnd)
  have hBhead : headNot95 (dropLeadUnderscore (dropLeadUnderscore l).reverse) = true :=
    dropLead_headNot95 _ (noDouble_reverse _ hAnd)
  refine ⟨?_, ?_, ?_, ?_⟩
  · rw [headNot95_iff, List.head?_reverse]
    apply dropLead_getLast?_ne
    rw [List.getLast?_reverse]
    exact (headNot95_iff _).mp hAhead
  · rw [List.getLast?_reverse]
    exact (headNot95_iff _).mp hBhead
  · exact noDouble_reverse _ hBnd
  · intro u hu
    rw [List.mem_reverse] at hu
    have h1 := dropLead_subset _ u hu
    rw [List.mem_reverse] at h1
    exact dropLead_subset l u h1

/-- Lower-casing maps underscores to underscores and nothing else to them. -/
theorem lowerCode_eq_95 (u : Nat) : lowerCode u = 95 ↔ u = 95 := by
  unfold lowerCode
  by_cases h : 65 ≤ u ∧ u ≤ 90
  · rw [if_pos h]
    omega
  · rw [if_neg h]

/-- Lower-casing a kept code unit lands in the claimed output class. -/
theorem lowerCode_charset (u : Nat) (h : toolNameCharCode u = true) :
    lowerToolCharCode (lowerCode u) = true := by
  simp only [toolNameCharCode, isAsciiAlphaNumCode, Bool.or_eq_true, Bool.and_eq_true,
    decide_eq_true_eq] at h
  simp only [lowerToolCharCode, lowerCode, Bool.or_eq_true, Bool.and_eq_true, decide_eq_true_eq]
  by_cases hc : 65 ≤ u ∧ u ≤ 90
  · rw [if_pos hc]
    omega
  · rw [if_neg hc]
    omega

/-- Lower-casing preserves membership in the output class pointwise. -/
theorem lower_charset_keep (l : List Nat) (h : ∀ u ∈ l, toolNameCharCode u = true) :
    ∀ u ∈ toLowerCodes l, lowerToolCharCode u = true := by
  intro u hu
  rcases List.mem_map.mp hu with ⟨c, hc, rfl⟩
  exact lowerCode_charset c (h c hc)

/-- Lower-casing preserves adjacent-underscore freedom. -/
theorem lower_noDouble (l : List Nat) (h : NoDoubleUnd l) : NoDoubleUnd (toLowerCodes l) := by
  unfold NoDoubleUnd toLowerCodes
  rw [List.chain'_map]
  exact List.Chain'.imp
    (fun a b hab hc => hab ⟨(lowerCode_eq_95 a).mp hc.1, (lowerCode_eq_95 b).mp hc.2⟩) h

/-- Lower-casing preserves an underscore-free head. -/
theorem lower_headNot95 (l : List Nat) (h : headNot95 l = true) :
    headNot95 (toLowerCodes l) = true := by
  cases l with
  | nil => rfl
  | cons a rest =>
    simp only [headNot95, decide_eq_true_eq] at h
    simp only [toLowerCodes, List.map_cons, headNot95, decide_eq_true_eq]
    exact fun hc => h ((lowerCode_eq_95 a).mp hc)

/-- Truncation preserves an underscore-free head. -/
theorem take_headNot95 (l : List Nat) (n : Nat) (h : headNot95 l = true) :
    headNot95 (l.take n) = true := by
  cases l with
  | nil => cases n <;> rfl
  | cons a rest =>
    cases n with
    | zero => rfl
    | succ m => simpa [headNot95] using h

/-- A list of kept code units is a replacement fixed point. -/
theorem replaceBad_fix (l : List Nat) (h : ∀ u ∈ l, toolNameCharCode u = true) :
    replaceBadChars l = l := by
  unfold replaceBadChars
  induction l with
  | nil => rfl
  | cons a rest ih =>
    simp only [List.map_cons]
    rw [if_pos (h a (List.mem_cons_self a rest))]
    rw [ih (fun u hu => h u (List.mem_cons_of_mem a hu))]

/-- A list in the output class is a lower-casing fixed point. -/
theorem lower_fix (l : List Nat) (h : ∀ u ∈ l, lowerToolCharCode u = true) :
    toLowerCodes l = l := by
  unfold toLowerCodes
  induction l with
  | nil => rfl
  | cons a rest ih =>
    rw [List.map_cons]
    have ha := h a (List.mem_cons_self a rest)
    have hfix : lowerCode a = a := by
      simp only [lowerToolCharCode, Bool.or_eq_true, Bool.and_eq_true, decide_eq_true_eq] at ha
      unfold lowerCode
      by_cases hc : 65 ≤ a ∧ a ≤ 90
      · exfalso
        omega
      · rw [if_neg hc]
    rw [hfix, ih (fun u hu => h u (List.mem_cons_of_mem a hu))]

/-- Structure and conditional idempotence of the sanitize pipeline: the output
stays in `[a-z0-9_-]`, is at most 64 code units, has no leading underscore and
no doubled underscore, and whenever it does not end in an underscore (the one
shape the 64-unit truncation can produce) re-sanitizing returns it unchanged. -/
theorem sanitizeCore_spec : ∀ l : List Nat,
    (∀ u ∈ sanitizeCore l, lowerToolCharCode u = true) ∧
    (sanitizeCore l).length ≤ 64 ∧
    headNot95 (sanitizeCore l) = true ∧
    NoDoubleUnd (sanitizeCore l) ∧
    ((sanitizeCore l).getLast? ≠ some 95 → sanitizeCore (sanitizeCore l) = sanitizeCore l) := by
  intro l
  have h0 : ∀ u ∈ replaceBadChars l, toolNameCharCode u = true := replaceBadChars_charset l
  have h1nd : NoDoubleUnd (collapseUnderscores (replaceBadChars l)) := collapse_noDouble _
  have h1cs : ∀ u ∈ collapseUnderscores (replaceBadChars l), toolNameCharCode u = true :=
    fun u hu => h0 u (collapse_subset _ u hu)
  obtain ⟨h2head, h2last, h2nd, h2sub⟩ := trimEdge_spec _ h1nd
  have h2cs : ∀ u ∈ trimEdgeUnderscores (collapseUnderscores (replaceBadChars l)),
      toolNameCharCode u = true := fun u hu => h1cs u (h2sub u hu)
  have h3cs := lower_charset_keep _ h2cs
  have h3nd := lower_noDouble _ h2nd
  have h3head := lower_headNot95 _ h2head
  have hycs : ∀ u ∈ sanitizeCore l, lowerToolCharCode u = true :=
    fun u hu => h3cs u (List.take_subset _ _ hu)
  have hynd : NoDoubleUnd (sanitizeCore l) := List.Chain'.take h3nd 64
  have hyhead : headNot95 (sanitizeCore l) = true := take_headNot95 _ 64 h3head
  have hylen : (sanitizeCore l).length ≤ 64 := by
    simp only [sanitizeCore, List.length_take]
    exact Nat.min_le_left _ _
  refine ⟨hycs, hylen, hyhead, hynd, ?_⟩
  intro hlast
  have hcs' : ∀ u ∈ sanitizeCore l, toolNameCharCode u = true := by
    intro u hu
    have hl := hycs u hu
    simp only [lowerToolCharCode, Bool.or_eq_true, Bool.and_eq_true, decide_eq_true_eq] at hl
    simp only [toolNameCharCode, isAsciiAlphaNumCode, Bool.or_eq_true, Bool.and_eq_true,
      decide_eq_true_eq]
    omega
  have e1 : replaceBadChars (sanitizeCore l) = sanitizeCore l := replaceBad_fix _ hcs'
  have e2 : collapseUnderscores (sanitizeCore l) = sanitizeCore l := collapse_fix _ hynd
  have e3 : trimEdgeUnderscores (sanitizeCore l) = sanitizeCore l := by
    unfold trimEdgeUnderscores
    have ha : dropLeadUnderscore (sanitizeCore l) = sanitizeCore l := by
      cases hy : sanitizeCore l with
      | nil => rfl
      | cons a rest =>
        rw [hy] at hyhead
        simp only [headNot95, decide_eq_true_eq] at hyhead
        simp only [dropLeadUnderscore, if_neg hyhead]
    rw [ha]
    have hb : dropLeadUnderscore (sanitizeCore l).reverse = (sanitizeCore l).reverse := by
      cases hy : (sanitizeCore l).reverse with
      | nil => rfl
      | cons a rest =>
        have hhead : (sanitizeCore l).reverse.head? = some a := by rw [hy]; rfl
        rw [List.head?_reverse] at hhead
        have ha95 : a ≠ 95 := fun hh => hlast (by rw [hhead, hh])
        simp only [dropLeadUnderscore, if_neg ha95]
    rw [hb, List.reverse_reverse]
  have e4 : toLowerCodes (sanitizeCore l) = sanitizeCore l := lower_fix _ hycs
  have e5 : (sanitizeCore l).take 64 = sanitizeCore l := List.take_of_length_le hylen
  calc sanitizeCore (sanitizeCore l)
      = (toLowerCodes (trimEdgeUnderscores (collapseUnderscores
          (replaceBadChars (sanitizeCore l))))).take 64 := rfl
    _ = sanitizeCore l := by rw [e1, e2, e3, e4, e5]

/-- C5 (amended): `sanitizeToolName` always produces a string matching
`[a-z0-9_-]` of length at most 64 with no leading and no doubled underscore,
and it is idempotent for every input whose output does not end in an
underscore — the 64-unit truncation can cut right after an underscore,
leaving a single trailing underscore that a second sanitization strips, which
is the one failure of the claimed idempotence and trailing-underscore rule. -/
theorem sanitizeToolName_props : ∀ s : String,
    sanitizeToolName s = codesStr (sanitizeCore (strCodes s)) ∧
    (∀ u ∈ sanitizeCore (strCodes s), lowerToolCharCode u = true) ∧
    (sanitizeCore (strCodes s)).length ≤ 64 ∧
    headNot95 (sanitizeCore (strCodes s)) = true ∧
    NoDoubleUnd (sanitizeCore (strCodes s)) ∧
    ((sanitizeCore (strCodes s)).getLast? ≠ some 95 →
       sanitizeCore (sanitizeCore (strCodes s)) = sanitizeCore (strCodes s)) := by
  intro s
  obtain ⟨a, b, c, d, e⟩ := sanitizeCore_spec (strCodes s)
  exact ⟨rfl, a, b, c, d, e⟩

/-- Input whose pre-truncation sanitized form is 65 units long with an
underscore in position 64. -/
def c5input : String := ⟨List.replicate 63 'a' ++ ['_', 'b']⟩

/-- Counterexample for C5 as stated: sanitizing `c5input` truncates right
after an underscore, so the output ends in `_` (violating the claimed
no-trailing-underscore shape) and sanitizing it again strips that underscore
(violating the claimed idempotence). -/
theorem sanitizeToolName_not_idempotent :
    sanitizeToolName (sanitizeToolName c5input) ≠ sanitizeToolName c5input ∧
    (strCodes (sanitizeToolName c5input)).getLast? = some 95 := by
  exact ⟨by decide, by decide⟩

/-- Witness for C5 (amended): the spec's own examples sanitize as claimed and
the idempotence instance holds on them. -/
theorem sanitizeToolName_props_witness :
    sanitizeToolName "Tool With Spaces" = "tool_with_spaces" ∧
    sanitizeCore (sanitizeCore (strCodes "Tool With Spaces")) =
      sanitizeCore (strCodes "Tool With Spaces") ∧
    sanitizeToolName "tool@#$special" = "tool_special" := by
  refine ⟨by decide, ?_, by decide⟩
  exact (sanitizeToolName_props "Tool With Spaces").2.2.2.2.2 (by decide)

end OpenAPIGen
